import Mathlib

/-!
Verification of the conveyor blending simulation (`conveyor_model`).

This file gives a shallow embedding of the core simulation code:

* `src/models/silo.py`                — `Silo` and its validation / activity window
* `src/simulation/calculator.py`      — `MatrixCalculator`
* `src/simulation/validator.py`       — `SimulationValidator`
* `src/simulation/engine.py`          — `SimulationEngine.run_simulation` and
                                        `_calculate_chemistry_trends`
* `src/simulation/bf_bunker_viz.py`   — `BlastFurnaceBunker.add_material_layer`

Python floats are modelled as exact rationals (`ℚ`): the properties proved
here are exact identities that the floating-point program satisfies up to
rounding; where a float literal is not exactly representable (`1e-10`,
`1e-6`, `0.1`, `np.pi`) the rational used is noted at the definition.
2D numpy arrays of shape (r, c) are modelled as `Fin r → Fin c → ℚ`.
-/

/-- Python `int(x)` truncates toward zero. -/
def pyInt (x : ℚ) : ℤ :=
  if 0 ≤ x then ⌊x⌋ else ⌈x⌉

/-- Python `round(x)` rounds half to even (banker's rounding). -/
def pyRound (x : ℚ) : ℤ :=
  let f := ⌊x⌋
  let r := x - f
  if r < 1 / 2 then f
  else if 1 / 2 < r then f + 1
  else if f % 2 = 0 then f else f + 1

/-- `models/silo.py`: the `Silo` dataclass.  Positions are Python ints,
hence `ℤ` (negativity is ruled out by `Silo.validate`, not by the type). -/
structure Silo where
  material : String
  capacity : ℚ
  flow_rate : ℚ
  material_position : ℤ
  silo_position : ℤ
  start_time : ℚ
deriving DecidableEq

/-- `Silo._validate_parameters`, run by `__post_init__` on every construction:
first failing check raises `ValueError`. -/
def Silo.validate (s : Silo) : Except String Unit :=
  if s.capacity ≤ 0 then .error "Capacity must be positive"
  else if s.flow_rate ≤ 0 then .error "Flow rate must be positive"
  else if s.material_position < 0 then .error "Material position must be non-negative"
  else if s.silo_position < 0 then .error "Silo position must be non-negative"
  else if s.start_time < 0 then .error "Start time must be non-negative"
  else .ok ()

/-- Constructing a `Silo(...)` in Python runs `__post_init__`, so a silo value
with invalid fields can never be produced by the constructor. -/
def mkSilo (material : String) (capacity flow_rate : ℚ)
    (material_position silo_position : ℤ) (start_time : ℚ) : Except String Silo :=
  let s : Silo := ⟨material, capacity, flow_rate, material_position, silo_position, start_time⟩
  match s.validate with
  | .error e => .error e
  | .ok _ => .ok s

/-- `Silo.quantity_at_time`: quantity discharged in time `dt`. -/
def Silo.quantity_at_time (s : Silo) (dt : ℚ) : ℚ :=
  s.flow_rate * dt

/-- `Silo.end_time`: recomputed from capacity and flow rate on every call
(it is a method, not a stored field). -/
def Silo.end_time (s : Silo) : ℚ :=
  s.start_time + s.capacity / s.flow_rate

/-- `Silo.is_active_at_time`: `start_time <= time <= end_time()`. -/
def Silo.is_active_at_time (s : Silo) (time : ℚ) : Bool :=
  decide (s.start_time ≤ time ∧ time ≤ s.end_time)

/-- `models/simulation_data.py`: `SimulationParameters`.  The chemistry map
(`Dict[str, Dict[str, float]]`, insertion-ordered in Python) is modelled as an
association list; each material's chemistry dict is modelled by `Chemistry`. -/
structure Chemistry where
  fe : ℚ
  sio2 : ℚ
  cao : ℚ
  mgo : ℚ
  al2o3 : ℚ

structure SimulationParameters where
  total_time : ℚ
  conveyor_length : ℚ
  resolution_size : ℚ
  conveyor_velocity : ℚ
  materials : List String
  silos : List Silo
  material_chemistry : List (String × Chemistry)

/-- `calculator.py`, `MatrixCalculator.shift_matrix_right`.
`steps <= 0` returns a copy; otherwise `shifted[:, steps:] = matrix[:, :-steps]`
when `steps < cols` (all other entries stay zero), and the all-zero matrix
when `steps >= cols`. -/
def shift_matrix_right {rows cols : ℕ} (matrix : Fin rows → Fin cols → ℚ)
    (steps : ℤ) : Fin rows → Fin cols → ℚ :=
  if steps ≤ 0 then matrix
  else fun r c =>
    if steps.toNat ≤ c.val then
      matrix r ⟨c.val - steps.toNat, lt_of_le_of_lt (Nat.sub_le _ _) c.isLt⟩
    else 0

/-- Index of a material column inside a flow-table row of `n + 2` columns. -/
def matIdx {n : ℕ} (c : Fin n) : Fin (n + 2) := Fin.castAdd 2 c

/-- Index of the time column (`[:, -2]`) of a flow-table row. -/
def timeIdx (n : ℕ) : Fin (n + 2) := ⟨n, by omega⟩

/-- Index of the total column (`[:, -1]`) of a flow-table row. -/
def totalIdx (n : ℕ) : Fin (n + 2) := Fin.last (n + 1)

/-- `calculator.py`, `MatrixCalculator.calculate_proportions`.

The flow table has `n` material columns followed by the time and total
columns.  Lines 58–60 of the source (the masked division) are dead code:
line 62 recomputes `proportions` in full as
`np.divide(materials, totals[:, np.newaxis]) * 100` and line 64 replaces
every non-finite entry by 0.  For finite inputs, an entry of that product is
non-finite exactly when the row's total is 0 (`x/0 = ±inf`, `0/0 = nan`,
and a non-finite value stays non-finite after `* 100`), so the embedding
returns 0 when the total is 0 and the exact quotient otherwise. -/
def calculate_proportions {n : ℕ} (flow_data : List (Fin (n + 2) → ℚ)) :
    Except String (List (Fin n → ℚ)) :=
  if n + 2 < 3 then .error "Flow data matrix must have at least 3 columns"
  else .ok (flow_data.map (fun row =>
    let total := row (totalIdx n)
    fun c => if total = 0 then 0 else row (matIdx c) / total * 100))

structure MassBalance where
  total_input : ℚ
  total_output : ℚ
  balance_error : ℚ
  balance_error_percent : ℚ

/-- `calculator.py`, `MatrixCalculator.calculate_mass_balance`.
`total_input = np.sum(flow_data[:, :-2])`, `total_output = np.sum(flow_data[:, -1])`.
The float literal `1e-10` is modelled as the rational `1/10^10` (its exact
value as a double differs only below the claims considered here). -/
def calculate_mass_balance {n : ℕ} (flow_data : List (Fin (n + 2) → ℚ)) :
    MassBalance :=
  let total_input := (flow_data.map (fun row => ∑ c : Fin n, row (matIdx c))).sum
  let total_output := (flow_data.map (fun row => row (totalIdx n))).sum
  { total_input := total_input
    total_output := total_output
    balance_error := |total_input - total_output|
    balance_error_percent := |total_input - total_output| / max total_input (1 / 10 ^ 10) * 100 }

/-- Number of grid columns, `int(conveyor_length / resolution_size)`, as
computed identically by `validator.py` line 53 and `engine.py` line 47. -/
def nSegments (p : SimulationParameters) : ℤ :=
  pyInt (p.conveyor_length / p.resolution_size)

/-- `validator.py`, `SimulationValidator._validate_basic_parameters`. -/
def validate_basic_parameters (p : SimulationParameters) : Except String Unit :=
  if p.total_time ≤ 0 then .error "Simulation time must be positive"
  else if p.conveyor_length ≤ 0 then .error "Conveyor length must be positive"
  else if p.resolution_size ≤ 0 then .error "Resolution size must be positive"
  else if p.conveyor_velocity ≤ 0 then .error "Conveyor velocity must be positive"
  else if p.conveyor_length < p.resolution_size then
    .error "Resolution size cannot exceed conveyor length"
  else .ok ()

/-- `validator.py`, `SimulationValidator._validate_materials`.
`len(set(materials)) != len(materials)` holds exactly when the list has a
duplicate, i.e. is not `Nodup`. -/
def validate_materials (p : SimulationParameters) : Except String Unit :=
  if p.materials = [] then .error "At least one material must be defined"
  else if ¬ p.materials.Nodup then .error "Material names must be unique"
  else .ok ()

/-- The per-silo loop of `_validate_silos` (first violation raises). -/
def validateSilosFrom (n_segments n_materials : ℤ) (total_time : ℚ) :
    List Silo → Except String Unit
  | [] => .ok ()
  | silo :: rest =>
    if n_segments ≤ silo.silo_position then
      .error "Position exceeds conveyor length"
    else if n_materials ≤ silo.material_position then
      .error "Material position exceeds material count"
    else if total_time < silo.start_time then
      .error "Start time exceeds simulation time"
    else validateSilosFrom n_segments n_materials total_time rest

/-- `validator.py`, `SimulationValidator._validate_silos`. -/
def validate_silos (p : SimulationParameters) : Except String Unit :=
  if p.silos = [] then .error "At least one silo must be defined"
  else validateSilosFrom (nSegments p) (p.materials.length : ℤ) p.total_time p.silos

/-- The per-silo loop of `_validate_physical_constraints`:
`end_time > total_time * 1.5` raises (1.5 is exactly 3/2 as a double). -/
def validatePhysicalFrom (total_time : ℚ) : List Silo → Except String Unit
  | [] => .ok ()
  | silo :: rest =>
    if total_time * (3 / 2) < silo.end_time then
      .error "Will not empty within reasonable time"
    else validatePhysicalFrom total_time rest

/-- `validator.py`, `SimulationValidator._validate_physical_constraints`. -/
def validate_physical_constraints (p : SimulationParameters) : Except String Unit :=
  validatePhysicalFrom p.total_time p.silos

/-- `validator.py`, `SimulationValidator.validate_parameters`: the four check
groups in order, stopping at the first failure. -/
def validate_parameters (p : SimulationParameters) : Except String Unit :=
  match validate_basic_parameters p with
  | .error e => .error e
  | .ok _ =>
    match validate_materials p with
    | .error e => .error e
    | .ok _ =>
      match validate_silos p with
      | .error e => .error e
      | .ok _ => validate_physical_constraints p

/-- `engine.py`, `SimulationEngine._add_material_to_conveyor`: adds `quantity`
at `(material_pos, silo_pos)` only when both indices are in bounds; an
out-of-bounds position is silently ignored (the validator must catch it
first). -/
def _add_material_to_conveyor {n k : ℕ} (matrix : Fin n → Fin k → ℚ)
    (material_pos silo_pos : ℤ) (quantity : ℚ) : Fin n → Fin k → ℚ :=
  if 0 ≤ material_pos ∧ material_pos < (n : ℤ) ∧ 0 ≤ silo_pos ∧ silo_pos < (k : ℤ) then
    fun r c =>
      if (r.val : ℤ) = material_pos ∧ (c.val : ℤ) = silo_pos then
        matrix r c + quantity
      else matrix r c
  else matrix

/-- The silo-processing loop at the top of each simulation step
(`engine.py` lines 70–78): every silo active at `time` contributes
`quantity_at_time(dt)` to its grid cell. -/
def processSilos {n k : ℕ} (silos : List Silo) (time dt : ℚ)
    (matrix : Fin n → Fin k → ℚ) : Fin n → Fin k → ℚ :=
  silos.foldl (fun m silo =>
    if silo.is_active_at_time time then
      _add_material_to_conveyor m silo.material_position silo.silo_position
        (silo.quantity_at_time dt)
    else m) matrix

/-- `matrix[:, -1]`: the discharge (last) column.  For validated parameters
the grid has at least one column (`n_segments ≥ 1`); the `k = 0` branch of
this total function is never reached by `run_simulation`. -/
def lastColumn {n k : ℕ} (matrix : Fin n → Fin k → ℚ) : Fin n → ℚ :=
  fun r => if h : 0 < k then matrix r ⟨k - 1, by omega⟩ else 0

/-- `engine.py` lines 91–93: the recorded flow row
`np.concatenate([material_flows, [time], [total_flow]])`, taken from the
matrix **as it is at recording time** (before the shift). -/
def recordRow {n k : ℕ} (matrix : Fin n → Fin k → ℚ) (time : ℚ) :
    Fin (n + 2) → ℚ :=
  fun j =>
    if h : j.val < n then lastColumn matrix ⟨j.val, h⟩
    else if j.val = n then time
    else ∑ r : Fin n, lastColumn matrix r

/-- The simulation loop of `run_simulation` (`engine.py` lines 68–102):
`while time <= total_time and counter <= n_steps`, each iteration injects
the active silos, records a flow row, shifts the grid by `step_size`, then
advances `time` and `counter`.  The preallocated `flow_data` array combined
with the final `flow_data[:counter]` trim is modelled by the appended list
`acc` of the rows actually written.  The counter guard makes the loop
terminate regardless of the time accumulation. -/
def simLoop (silos : List Silo) (dt total_time : ℚ) (n_steps : ℕ)
    (step_size : ℤ) {n k : ℕ} (time : ℚ) (counter : ℕ)
    (matrix : Fin n → Fin k → ℚ) (acc : List (Fin (n + 2) → ℚ)) :
    List (Fin (n + 2) → ℚ) × (Fin n → Fin k → ℚ) × ℚ × ℕ :=
  if h : time ≤ total_time ∧ counter ≤ n_steps then
    simLoop silos dt total_time n_steps step_size (time + dt) (counter + 1)
      (shift_matrix_right (processSilos silos time dt matrix) step_size)
      (acc ++ [recordRow (processSilos silos time dt matrix) time])
  else (acc, matrix, time, counter)
termination_by n_steps + 1 - counter
decreasing_by omega

/-- `dt = resolution_size / conveyor.velocity` (`engine.py` line 45). -/
def SimulationParameters.dt (p : SimulationParameters) : ℚ :=
  p.resolution_size / p.conveyor_velocity

/-- `n_steps = int(total_time / dt)` (`engine.py` line 46); nonnegative for
validated parameters, so `toNat` is lossless there. -/
def nSteps (p : SimulationParameters) : ℕ :=
  (pyInt (p.total_time / p.dt)).toNat

/-- `step_size = max(1, round((velocity * dt) / resolution_size))`
(`engine.py` line 64). -/
def stepSize (p : SimulationParameters) : ℤ :=
  max 1 (pyRound (p.conveyor_velocity * p.dt / p.resolution_size))

/-- `SimulationResults` restricted to the fields the engine computes
(`engine.py` lines 114–127); metadata entries are inlined as fields. -/
structure SimulationResults (n_materials n_segments : ℕ) where
  material_matrix : Fin n_materials → Fin n_segments → ℚ
  flow_data : List (Fin (n_materials + 2) → ℚ)
  proportion_data : List (Fin n_materials → ℚ)
  dt : ℚ
  n_steps : ℕ
  step_size : ℤ
  final_time : ℚ
  mass_balance : MassBalance

/-- `engine.py`, `SimulationEngine.run_simulation`, with blast-furnace mode
off (`bf_initialized = False`, the state a fresh engine starts in): validate,
build the zero grid, run the loop, trim, and derive proportions and the mass
balance.  A raised `ValidationError` or `ValueError` is an `error` result. -/
def run_simulation (p : SimulationParameters) :
    Except String (SimulationResults p.materials.length (nSegments p).toNat) :=
  match validate_parameters p with
  | .error e => .error e
  | .ok _ =>
    let init : Fin p.materials.length → Fin (nSegments p).toNat → ℚ := fun _ _ => 0
    let out := simLoop p.silos p.dt p.total_time (nSteps p) (stepSize p) 0 0 init []
    match calculate_proportions out.1 with
    | .error e => .error e
    | .ok props =>
      .ok { material_matrix := out.2.1
            flow_data := out.1
            proportion_data := props
            dt := p.dt
            n_steps := out.2.2.2
            step_size := stepSize p
            final_time := out.2.2.1 - p.dt
            mass_balance := calculate_mass_balance out.1 }

/-- The trends dictionary built by `_calculate_chemistry_trends`
(`engine.py` lines 201–209). -/
structure ChemistryTrends where
  fe_trend : List ℚ
  sio2_trend : List ℚ
  cao_trend : List ℚ
  mgo_trend : List ℚ
  al2o3_trend : List ℚ
  basicity_trend : List ℚ
  time_points : List ℚ

def emptyTrends : ChemistryTrends := ⟨[], [], [], [], [], [], []⟩

/-- The inner accumulation of `_calculate_chemistry_trends`
(`engine.py` lines 230–241): for each material index in the chemistry dict
order, if the index is inside the material columns and its flow is positive,
add `component * (material_flow / total_flow)`. -/
def weightedComponent {n : ℕ} (chems : List (String × Chemistry))
    (row : Fin (n + 2) → ℚ) (total_flow : ℚ) (component : Chemistry → ℚ) : ℚ :=
  chems.enum.foldl (fun acc entry =>
    if h : entry.1 < n then
      let material_flow := row ⟨entry.1, by omega⟩
      if 0 < material_flow then
        acc + component entry.2.2 * (material_flow / total_flow)
      else acc
    else acc) 0

/-- `engine.py`, `SimulationEngine._calculate_chemistry_trends` with a
nonempty chemistry map: a time point enters every trend list exactly when
`total_flow > 1e-6` (the float `1e-6` is modelled as `1/10^6`; its exact
double value differs only in digits irrelevant here).  Basicity is
`weighted_cao / max(weighted_sio2, 0.1) if weighted_sio2 > 0.1 else 0`
(`engine.py` line 244, with `0.1` modelled as `1/10`).  `trendStep` is the
loop body for one flow row; `_calculate_chemistry_trends` folds it over the
table. -/
def trendStep {n : ℕ} (chems : List (String × Chemistry))
    (trends : ChemistryTrends) (row : Fin (n + 2) → ℚ) : ChemistryTrends :=
  let total_flow := row (totalIdx n)
  let time_point := row (timeIdx n)
  if 1 / 10 ^ 6 < total_flow then
    let weighted_fe := weightedComponent chems row total_flow Chemistry.fe
    let weighted_sio2 := weightedComponent chems row total_flow Chemistry.sio2
    let weighted_cao := weightedComponent chems row total_flow Chemistry.cao
    let weighted_mgo := weightedComponent chems row total_flow Chemistry.mgo
    let weighted_al2o3 := weightedComponent chems row total_flow Chemistry.al2o3
    let basicity_b2 :=
      if 1 / 10 < weighted_sio2 then weighted_cao / max weighted_sio2 (1 / 10) else 0
    { fe_trend := trends.fe_trend ++ [weighted_fe]
      sio2_trend := trends.sio2_trend ++ [weighted_sio2]
      cao_trend := trends.cao_trend ++ [weighted_cao]
      mgo_trend := trends.mgo_trend ++ [weighted_mgo]
      al2o3_trend := trends.al2o3_trend ++ [weighted_al2o3]
      basicity_trend := trends.basicity_trend ++ [basicity_b2]
      time_points := trends.time_points ++ [time_point] }
  else trends

def _calculate_chemistry_trends {n : ℕ} (chems : List (String × Chemistry))
    (flow_data : List (Fin (n + 2) → ℚ)) : ChemistryTrends :=
  flow_data.foldl (trendStep chems) emptyTrends

/-- `bf_bunker_viz.py`: the `MaterialLayer` dataclass. -/
structure MaterialLayer where
  material_name : String
  volume : ℚ
  height : ℚ
  position : ℚ
  timestamp : ℚ
  fe_content : ℚ
  sio2_content : ℚ
  cao_content : ℚ
  mgo_content : ℚ
  al2o3_content : ℚ

/-- `bf_bunker_viz.py`: the `BlastFurnaceBunker` dataclass (fields used by
`add_material_layer`; the discharge geometry fields play no role there). -/
structure BlastFurnaceBunker where
  bunker_id : String
  diameter : ℚ
  height : ℚ
  layers : List MaterialLayer

/-- `np.pi` is the IEEE-754 double closest to π; as an exact rational it is
`884279719003555 / 2^48`.  Only its positivity matters to the claims. -/
def np_pi : ℚ := 884279719003555 / 281474976710656

/-- `sum(layer.height for layer in self.layers)`: the current stack top. -/
def fillHeight (b : BlastFurnaceBunker) : ℚ :=
  (b.layers.map MaterialLayer.height).sum

/-- `bf_bunker_viz.py`, `BlastFurnaceBunker.add_material_layer`: compute the
layer height from the cylinder cross-section, truncate height and volume if
the layer would pass the bunker top, and append the layer at the current
top. -/
def add_material_layer (b : BlastFurnaceBunker) (material_name : String)
    (volume : ℚ) (chemistry : Chemistry) (timestamp : ℚ) : BlastFurnaceBunker :=
  let cross_section := np_pi * (b.diameter / 2) ^ 2
  let layer_height := volume / cross_section
  let current_top := fillHeight b
  let layer_height' :=
    if b.height < current_top + layer_height then b.height - current_top else layer_height
  let volume' :=
    if b.height < current_top + layer_height then layer_height' * cross_section else volume
  { b with layers := b.layers ++
      [{ material_name := material_name
         volume := volume'
         height := layer_height'
         position := current_top
         timestamp := timestamp
         fe_content := chemistry.fe
         sio2_content := chemistry.sio2
         cao_content := chemistry.cao
         mgo_content := chemistry.mgo
         al2o3_content := chemistry.al2o3 }] }

/-- A sequence of `add_material_layer` calls, in order. -/
def addLayers (b : BlastFurnaceBunker)
    (requests : List (String × ℚ × Chemistry × ℚ)) : BlastFurnaceBunker :=
  requests.foldl (fun bk r => add_material_layer bk r.1 r.2.1 r.2.2.1 r.2.2.2) b

lemma add_material_apply {n k : ℕ} (matrix : Fin n → Fin k → ℚ)
    (mp sp : ℤ) (q : ℚ) (r : Fin n) (c : Fin k) :
    _add_material_to_conveyor matrix mp sp q r c =
      if (r.val : ℤ) = mp ∧ (c.val : ℤ) = sp then matrix r c + q else matrix r c := by
  unfold _add_material_to_conveyor
  by_cases hb : 0 ≤ mp ∧ mp < (n : ℤ) ∧ 0 ≤ sp ∧ sp < (k : ℤ)
  · rw [if_pos hb]
  · rw [if_neg hb, if_neg]
    intro h2
    apply hb
    obtain ⟨hr, hc⟩ := h2
    refine ⟨by omega, ?_, by omega, ?_⟩
    · rw [← hr]; exact_mod_cast r.isLt
    · rw [← hc]; exact_mod_cast c.isLt

lemma processSilos_cons {n k : ℕ} (s : Silo) (rest : List Silo) (t dt : ℚ)
    (matrix : Fin n → Fin k → ℚ) :
    processSilos (s :: rest) t dt matrix =
      processSilos rest t dt
        (if s.is_active_at_time t then
          _add_material_to_conveyor matrix s.material_position s.silo_position
            (s.quantity_at_time dt)
        else matrix) := by
  unfold processSilos
  simp [List.foldl_cons]

lemma processSilos_apply {n k : ℕ} (silos : List Silo) (t dt : ℚ)
    (matrix : Fin n → Fin k → ℚ) (r : Fin n) (c : Fin k) :
    processSilos silos t dt matrix r c =
      matrix r c + ((silos.filter (fun s2 => s2.is_active_at_time t ∧
          s2.material_position = (r.val : ℤ) ∧ s2.silo_position = (c.val : ℤ))).map
        (fun s2 => s2.flow_rate * dt)).sum := by
  induction silos generalizing matrix with
  | nil => simp [processSilos]
  | cons s rest ih =>
    rw [processSilos_cons, ih]
    by_cases hact : s.is_active_at_time t
    · by_cases hpos : s.material_position = (r.val : ℤ) ∧ s.silo_position = (c.val : ℤ)
      · have hfil : (s :: rest).filter (fun s2 => s2.is_active_at_time t ∧
            s2.material_position = (r.val : ℤ) ∧ s2.silo_position = (c.val : ℤ)) =
            s :: rest.filter (fun s2 => s2.is_active_at_time t ∧
              s2.material_position = (r.val : ℤ) ∧ s2.silo_position = (c.val : ℤ)) := by
          rw [List.filter_cons_of_pos]
          simp only [decide_eq_true_eq]
          exact ⟨hact, hpos.1, hpos.2⟩
        rw [hfil, List.map_cons, List.sum_cons]
        rw [if_pos hact, add_material_apply, if_pos ⟨hpos.1.symm, hpos.2.symm⟩]
        simp [Silo.quantity_at_time]
        ring
      · have hfil : (s :: rest).filter (fun s2 => s2.is_active_at_time t ∧
            s2.material_position = (r.val : ℤ) ∧ s2.silo_position = (c.val : ℤ)) =
            rest.filter (fun s2 => s2.is_active_at_time t ∧
              s2.material_position = (r.val : ℤ) ∧ s2.silo_position = (c.val : ℤ)) := by
          rw [List.filter_cons_of_neg]
          simp only [decide_eq_true_eq]
          intro hcon
          exact hpos hcon.2
        rw [hfil, if_pos hact, add_material_apply, if_neg]
        intro hcon
        exact hpos ⟨hcon.1.symm, hcon.2.symm⟩
    · have hfil : (s :: rest).filter (fun s2 => s2.is_active_at_time t ∧
          s2.material_position = (r.val : ℤ) ∧ s2.silo_position = (c.val : ℤ)) =
          rest.filter (fun s2 => s2.is_active_at_time t ∧
            s2.material_position = (r.val : ℤ) ∧ s2.silo_position = (c.val : ℤ)) := by
        rw [List.filter_cons_of_neg]
        simp only [decide_eq_true_eq]
        intro hcon
        exact hact hcon.1
      rw [hfil, if_neg hact]

lemma shift_pos_apply {rows cols : ℕ} (M : Fin rows → Fin cols → ℚ)
    (st : ℤ) (hst : ¬ st ≤ 0) (r : Fin rows) (c : Fin cols) :
    shift_matrix_right M st r c =
      if st.toNat ≤ c.val then
        M r ⟨c.val - st.toNat, lt_of_le_of_lt (Nat.sub_le _ _) c.isLt⟩
      else 0 := by
  unfold shift_matrix_right
  rw [if_neg hst]

/-- C5 — At every simulation timestep with current time `t`, a source injects
mass exactly when `start_time ≤ t ≤ start_time + capacity/flow_rate` (both
endpoints inclusive), the end time being recomputed from capacity and flow
rate; when active it adds exactly `flow_rate * dt` to the grid cell at
`(material_row, belt_column)`, and several active sources targeting the same
cell accumulate additively (the cell receives the sum of their
contributions). -/
theorem C5_activity_window_and_additive_injection {n k : ℕ} (s : Silo)
    (t dt : ℚ) (silos : List Silo) (matrix : Fin n → Fin k → ℚ)
    (r : Fin n) (c : Fin k) :
    (s.is_active_at_time t = true ↔
      s.start_time ≤ t ∧ t ≤ s.start_time + s.capacity / s.flow_rate) ∧
    s.quantity_at_time dt = s.flow_rate * dt ∧
    processSilos silos t dt matrix r c =
      matrix r c + ((silos.filter (fun s2 => s2.is_active_at_time t ∧
          s2.material_position = (r.val : ℤ) ∧ s2.silo_position = (c.val : ℤ))).map
        (fun s2 => s2.flow_rate * dt)).sum := by
  refine ⟨?_, rfl, processSilos_apply silos t dt matrix r c⟩
  simp [Silo.is_active_at_time, Silo.end_time]

/-- C4 — For a matrix with `cols` columns and a shift count `k` with
`0 < k < cols`, `shift_matrix_right` keeps the shape and moves entry
`(r, c)` to `(r, c + k)` for `c + k < cols`, zero-fills columns `[0, k)`,
and returns the all-zero matrix when `k ≥ cols`; in the simulation loop the
flow sample appended to the table is taken from the injected matrix before
the shift is applied to it. -/
theorem C4_shift_semantics_and_sample_before_shift {rows cols : ℕ}
    (M : Fin rows → Fin cols → ℚ) (k : ℕ) (hk : 0 < k) :
    (∀ (r : Fin rows) (c : ℕ) (hc : c + k < cols),
        shift_matrix_right M (k : ℤ) r ⟨c + k, hc⟩ =
          M r ⟨c, by omega⟩) ∧
    (∀ (r : Fin rows) (c : Fin cols), c.val < k →
        shift_matrix_right M (k : ℤ) r c = 0) ∧
    (cols ≤ k → ∀ (r : Fin rows) (c : Fin cols),
        shift_matrix_right M (k : ℤ) r c = 0) ∧
    (∀ (silos : List Silo) (dt total_time : ℚ) (n_steps : ℕ) (step_size : ℤ)
        (time : ℚ) (counter : ℕ) (acc : List (Fin (rows + 2) → ℚ)),
        time ≤ total_time → counter ≤ n_steps →
        simLoop silos dt total_time n_steps step_size time counter M acc =
          simLoop silos dt total_time n_steps step_size (time + dt) (counter + 1)
            (shift_matrix_right (processSilos silos time dt M) step_size)
            (acc ++ [recordRow (processSilos silos time dt M) time])) := by
  have hkz : ¬ ((k : ℤ) ≤ 0) := by omega
  refine ⟨?_, ?_, ?_, ?_⟩
  · intro r c hc
    rw [shift_pos_apply M (k : ℤ) hkz, if_pos (by simp)]
    congr 1
    apply Fin.ext
    simp
  · intro r c hck
    rw [shift_pos_apply M (k : ℤ) hkz, if_neg (by simpa using hck)]
  · intro hck r c
    rw [shift_pos_apply M (k : ℤ) hkz, if_neg (by simp; omega)]
  · intro silos dt total_time n_steps step_size time counter acc h1 h2
    rw [simLoop, dif_pos ⟨h1, h2⟩]

/-- C1 — `calculate_proportions` returns a table with one row per input row
and one column per material; in a row whose total column is strictly
positive each material entry is `(material flow / total flow) * 100`, and in
a row whose total column is exactly 0 every material entry is exactly 0
(never NaN or infinity), regardless of the per-material values in that
row. -/
theorem C1_proportions_zero_total_rows_are_zero {n : ℕ}
    (flow_data : List (Fin (n + 2) → ℚ)) (ps : List (Fin n → ℚ))
    (hps : calculate_proportions flow_data = .ok ps) :
    ps.length = flow_data.length ∧
    ∀ (i : ℕ) (hi : i < flow_data.length) (hi2 : i < ps.length) (c : Fin n),
      (0 < flow_data.get ⟨i, hi⟩ (totalIdx n) →
        ps.get ⟨i, hi2⟩ c =
          flow_data.get ⟨i, hi⟩ (matIdx c) / flow_data.get ⟨i, hi⟩ (totalIdx n) * 100) ∧
      (flow_data.get ⟨i, hi⟩ (totalIdx n) = 0 → ps.get ⟨i, hi2⟩ c = 0) := by
  unfold calculate_proportions at hps
  by_cases hn : n + 2 < 3
  · rw [if_pos hn] at hps
    cases hps
  · rw [if_neg hn] at hps
    injection hps with hps
    subst hps
    refine ⟨List.length_map _ _, ?_⟩
    intro i hi hi2 c
    have hget : (flow_data.map (fun row =>
        let total := row (totalIdx n)
        (fun c => if total = 0 then 0 else row (matIdx c) / total * 100 : Fin n → ℚ))).get
          ⟨i, hi2⟩ =
        (fun c => if flow_data.get ⟨i, hi⟩ (totalIdx n) = 0 then 0
          else flow_data.get ⟨i, hi⟩ (matIdx c) / flow_data.get ⟨i, hi⟩ (totalIdx n) * 100) := by
      rw [List.get_map]
    constructor
    · intro hpos
      simp only [hget]
      exact if_neg hpos.ne'
    · intro hzero
      simp only [hget]
      simp [hzero]

/-- A concrete two-row flow table: row 0 has total 4, row 1 has total 0 with
nonzero per-material entries. -/
def flowC1 : List (Fin (2 + 2) → ℚ) := [![1, 3, 9, 4], ![5, 7, 9, 0]]

/-- The proportion table computed from `flowC1`. -/
def propsC1 : List (Fin 2 → ℚ) :=
  match calculate_proportions flowC1 with
  | .ok ps => ps
  | .error _ => []

/-- Witness for C1: on `flowC1` the calculator succeeds; the positive-total
row yields the exact quotient and the zero-total row yields 0. -/
theorem C1_witness :
    calculate_proportions flowC1 = .ok propsC1 ∧
    (0 : ℚ) < flowC1.get ⟨0, by decide⟩ (totalIdx 2) ∧
    propsC1.get ⟨0, by decide⟩ 0 =
      flowC1.get ⟨0, by decide⟩ (matIdx 0) / flowC1.get ⟨0, by decide⟩ (totalIdx 2) * 100 ∧
    flowC1.get ⟨1, by decide⟩ (totalIdx 2) = 0 ∧
    propsC1.get ⟨1, by decide⟩ 0 = 0 := by
  have hps : calculate_proportions flowC1 = .ok propsC1 := rfl
  have h := C1_proportions_zero_total_rows_are_zero flowC1 propsC1 hps
  have h1 : (0 : ℚ) < flowC1.get ⟨0, by decide⟩ (totalIdx 2) := by
    have e : flowC1.get ⟨0, by decide⟩ (totalIdx 2) = 4 := rfl
    rw [e]; norm_num
  have h2 : flowC1.get ⟨1, by decide⟩ (totalIdx 2) = 0 := rfl
  exact ⟨hps, h1, (h.2 0 (by decide) (by decide) 0).1 h1, h2,
    (h.2 1 (by decide) (by decide) 0).2 h2⟩

lemma trends_foldl_char {n : ℕ} (chems : List (String × Chemistry))
    (flow : List (Fin (n + 2) → ℚ)) (tr : ChemistryTrends) :
    flow.foldl (trendStep chems) tr =
      { fe_trend := tr.fe_trend ++
          (flow.filter (fun row => 1 / 10 ^ 6 < row (totalIdx n))).map
            (fun row => weightedComponent chems row (row (totalIdx n)) Chemistry.fe)
        sio2_trend := tr.sio2_trend ++
          (flow.filter (fun row => 1 / 10 ^ 6 < row (totalIdx n))).map
            (fun row => weightedComponent chems row (row (totalIdx n)) Chemistry.sio2)
        cao_trend := tr.cao_trend ++
          (flow.filter (fun row => 1 / 10 ^ 6 < row (totalIdx n))).map
            (fun row => weightedComponent chems row (row (totalIdx n)) Chemistry.cao)
        mgo_trend := tr.mgo_trend ++
          (flow.filter (fun row => 1 / 10 ^ 6 < row (totalIdx n))).map
            (fun row => weightedComponent chems row (row (totalIdx n)) Chemistry.mgo)
        al2o3_trend := tr.al2o3_trend ++
          (flow.filter (fun row => 1 / 10 ^ 6 < row (totalIdx n))).map
            (fun row => weightedComponent chems row (row (totalIdx n)) Chemistry.al2o3)
        basicity_trend := tr.basicity_trend ++
          (flow.filter (fun row => 1 / 10 ^ 6 < row (totalIdx n))).map
            (fun row =>
              if 1 / 10 < weightedComponent chems row (row (totalIdx n)) Chemistry.sio2 then
                weightedComponent chems row (row (totalIdx n)) Chemistry.cao /
                  max (weightedComponent chems row (row (totalIdx n)) Chemistry.sio2) (1 / 10)
              else 0)
        time_points := tr.time_points ++
          (flow.filter (fun row => 1 / 10 ^ 6 < row (totalIdx n))).map
            (fun row => row (timeIdx n)) } := by
  induction flow generalizing tr with
  | nil =>
    cases tr
    simp
  | cons row rest ih =>
    rw [List.foldl_cons, ih]
    by_cases hcond : 1 / 10 ^ 6 < row (totalIdx n)
    · rw [List.filter_cons_of_pos (by simpa using hcond)]
      unfold trendStep
      rw [if_pos hcond]
      simp [List.append_assoc]
    · rw [List.filter_cons_of_neg (by simpa using hcond)]
      unfold trendStep
      rw [if_neg hcond]

/-- C7 (amended) — For every timestep included in the chemistry trend
(total flow above the epsilon threshold), the reported basicity B2 equals
`blended_CaO / max(blended_SiO2, 0.1)` when the flow-weighted SiO2 exceeds
0.1, and is 0 when the flow-weighted SiO2 is at or below 0.1 (even when the
flow-weighted CaO is positive). -/
theorem C7_basicity_formula {n : ℕ} (chems : List (String × Chemistry))
    (flow : List (Fin (n + 2) → ℚ)) :
    (_calculate_chemistry_trends chems flow).basicity_trend =
      (flow.filter (fun row => 1 / 10 ^ 6 < row (totalIdx n))).map
        (fun row =>
          if 1 / 10 < weightedComponent chems row (row (totalIdx n)) Chemistry.sio2 then
            weightedComponent chems row (row (totalIdx n)) Chemistry.cao /
              max (weightedComponent chems row (row (totalIdx n)) Chemistry.sio2) (1 / 10)
          else 0) := by
  unfold _calculate_chemistry_trends
  rw [trends_foldl_char]
  simp [emptyTrends]

/-- A flow row with one material: flow 1, time 0, total 1. -/
def rowC7 : Fin (1 + 2) → ℚ := fun j => if j.val = 1 then 0 else 1

def flowC7 : List (Fin (1 + 2) → ℚ) := [rowC7]

/-- A single material whose chemistry has SiO2 = 0 and CaO = 50. -/
def chemsC7 : List (String × Chemistry) := [("Limestone", ⟨0, 0, 50, 0, 0⟩)]

/-- Counterexample to C7 as stated: at this input the timestep is included
in the trend (total flow 1 > 1e-6), the blended SiO2 is 0 ≤ 0.1 and the
blended CaO is 50 > 0, yet the code reports B2 = 0 while
`blended_CaO / max(blended_SiO2, 0.1) = 500 ≠ 0`. -/
theorem C7_counterexample :
    (_calculate_chemistry_trends chemsC7 flowC7).basicity_trend = [0] ∧
    weightedComponent chemsC7 rowC7 (rowC7 (totalIdx 1)) Chemistry.sio2 ≤ 1 / 10 ∧
    0 < weightedComponent chemsC7 rowC7 (rowC7 (totalIdx 1)) Chemistry.cao ∧
    weightedComponent chemsC7 rowC7 (rowC7 (totalIdx 1)) Chemistry.cao /
      max (weightedComponent chemsC7 rowC7 (rowC7 (totalIdx 1)) Chemistry.sio2) (1 / 10) =
        500 ∧
    (0 : ℚ) ≠ 500 := by
  have hs : weightedComponent chemsC7 rowC7 (rowC7 (totalIdx 1)) Chemistry.sio2 = 0 := by
    norm_num [weightedComponent, chemsC7, rowC7, totalIdx, List.enum]
  have hc : weightedComponent chemsC7 rowC7 (rowC7 (totalIdx 1)) Chemistry.cao = 50 := by
    norm_num [weightedComponent, chemsC7, rowC7, totalIdx, List.enum]
  refine ⟨?_, by rw [hs]; norm_num, by rw [hc]; norm_num, by rw [hs, hc]; norm_num, by norm_num⟩
  unfold _calculate_chemistry_trends
  rw [show flowC7 = [rowC7] from rfl, List.foldl_cons, List.foldl_nil]
  unfold trendStep
  rw [if_pos (by norm_num [rowC7, totalIdx])]
  simp only [emptyTrends, List.nil_append]
  rw [if_neg (by rw [hs]; norm_num)]

/-- C8 — A timestep enters the chemistry trend exactly when its total flow
exceeds the `1e-6` threshold: the time-points list is the filtered rows'
time column, every trend series has exactly that length (timesteps at or
below the threshold are omitted, no 0 is emitted), while the proportion
calculator keeps one output row per input row (emitting 0 for zero-total
rows). -/
theorem C8_trend_inclusion_iff_threshold {n : ℕ} (chems : List (String × Chemistry))
    (flow : List (Fin (n + 2) → ℚ)) :
    (_calculate_chemistry_trends chems flow).time_points =
      (flow.filter (fun row => 1 / 10 ^ 6 < row (totalIdx n))).map
        (fun row => row (timeIdx n)) ∧
    (_calculate_chemistry_trends chems flow).fe_trend.length =
      (flow.filter (fun row => 1 / 10 ^ 6 < row (totalIdx n))).length ∧
    (_calculate_chemistry_trends chems flow).sio2_trend.length =
      (flow.filter (fun row => 1 / 10 ^ 6 < row (totalIdx n))).length ∧
    (_calculate_chemistry_trends chems flow).cao_trend.length =
      (flow.filter (fun row => 1 / 10 ^ 6 < row (totalIdx n))).length ∧
    (_calculate_chemistry_trends chems flow).mgo_trend.length =
      (flow.filter (fun row => 1 / 10 ^ 6 < row (totalIdx n))).length ∧
    (_calculate_chemistry_trends chems flow).al2o3_trend.length =
      (flow.filter (fun row => 1 / 10 ^ 6 < row (totalIdx n))).length ∧
    (_calculate_chemistry_trends chems flow).basicity_trend.length =
      (flow.filter (fun row => 1 / 10 ^ 6 < row (totalIdx n))).length ∧
    (0 < n → ∃ ps, calculate_proportions flow = .ok ps ∧ ps.length = flow.length) := by
  unfold _calculate_chemistry_trends
  rw [trends_foldl_char]
  refine ⟨by simp [emptyTrends], by simp [emptyTrends], by simp [emptyTrends],
    by simp [emptyTrends], by simp [emptyTrends], by simp [emptyTrends],
    by simp [emptyTrends], ?_⟩
  intro hn
  unfold calculate_proportions
  rw [if_neg (by omega)]
  exact ⟨_, rfl, List.length_map _ _⟩

def mC4 : Fin 1 → Fin 3 → ℚ := ![![1, 2, 3]]

/-- Witness for C4: a concrete 1×3 matrix shifted by 2 moves column 0 to
column 2 and zero-fills column 0. -/
theorem C4_witness :
    (0 : ℕ) < 2 ∧
    shift_matrix_right mC4 ((2 : ℕ) : ℤ) 0 ⟨0 + 2, by decide⟩ = mC4 0 ⟨0, by decide⟩ ∧
    shift_matrix_right mC4 ((2 : ℕ) : ℤ) 0 ⟨0, by decide⟩ = 0 := by
  have h := C4_shift_semantics_and_sample_before_shift mC4 2 (by decide)
  exact ⟨by decide, h.1 0 0 (by decide), h.2.1 0 ⟨0, by decide⟩ (by decide)⟩

/-- Witness for C8: at the concrete one-row table `flowC7` the trend keeps
the single above-threshold timestep, and a proportion table of the same row
count exists (the material count 1 is positive). -/
theorem C8_witness :
    (_calculate_chemistry_trends chemsC7 flowC7).time_points =
      (flowC7.filter (fun row => 1 / 10 ^ 6 < row (totalIdx 1))).map
        (fun row => row (timeIdx 1)) ∧
    (0 : ℕ) < 1 ∧
    ∃ ps, calculate_proportions flowC7 = .ok ps ∧ ps.length = flowC7.length := by
  have h := C8_trend_inclusion_iff_threshold chemsC7 flowC7
  exact ⟨h.1, by decide, h.2.2.2.2.2.2.2 (by decide)⟩

/-- The layer value appended by one `add_material_layer` call. -/
def appendedLayer (b : BlastFurnaceBunker) (name : String) (vol : ℚ)
    (chem : Chemistry) (ts : ℚ) : MaterialLayer :=
  { material_name := name
    volume := if b.height < fillHeight b + vol / (np_pi * (b.diameter / 2) ^ 2)
      then (b.height - fillHeight b) * (np_pi * (b.diameter / 2) ^ 2) else vol
    height := if b.height < fillHeight b + vol / (np_pi * (b.diameter / 2) ^ 2)
      then b.height - fillHeight b else vol / (np_pi * (b.diameter / 2) ^ 2)
    position := fillHeight b
    timestamp := ts
    fe_content := chem.fe
    sio2_content := chem.sio2
    cao_content := chem.cao
    mgo_content := chem.mgo
    al2o3_content := chem.al2o3 }

lemma fillHeight_add (b : BlastFurnaceBunker) (name : String) (vol : ℚ)
    (chem : Chemistry) (ts : ℚ) :
    fillHeight (add_material_layer b name vol chem ts) =
      if b.height < fillHeight b + vol / (np_pi * (b.diameter / 2) ^ 2) then b.height
      else fillHeight b + vol / (np_pi * (b.diameter / 2) ^ 2) := by
  unfold add_material_layer fillHeight
  by_cases hc : b.height < (b.layers.map MaterialLayer.height).sum +
      vol / (np_pi * (b.diameter / 2) ^ 2)
  · rw [if_pos hc]
    simp only [List.map_append, List.sum_append, List.map_cons, List.map_nil,
      List.sum_cons, List.sum_nil]
    rw [if_pos hc]
    ring
  · rw [if_neg hc]
    simp only [List.map_append, List.sum_append, List.map_cons, List.map_nil,
      List.sum_cons, List.sum_nil]
    rw [if_neg hc]
    ring

lemma add_layer_le (b : BlastFurnaceBunker) (name : String) (vol : ℚ)
    (chem : Chemistry) (ts : ℚ) (hfill : fillHeight b ≤ b.height) :
    fillHeight (add_material_layer b name vol chem ts) ≤ b.height := by
  rw [fillHeight_add]
  by_cases hc : b.height < fillHeight b + vol / (np_pi * (b.diameter / 2) ^ 2)
  · rw [if_pos hc]
  · rw [if_neg hc]
    linarith [not_lt.mp hc]

lemma add_layer_keeps_dims (b : BlastFurnaceBunker) (name : String) (vol : ℚ)
    (chem : Chemistry) (ts : ℚ) :
    (add_material_layer b name vol chem ts).height = b.height ∧
    (add_material_layer b name vol chem ts).diameter = b.diameter := by
  unfold add_material_layer
  exact ⟨rfl, rfl⟩

/-- C9 — For every bunker state whose layers fit (as holds for a freshly
constructed bunker) and every sequence of `add_material_layer` calls with
non-negative volumes, the sum of all layer heights never exceeds the bunker
height; a layer that would overflow is truncated so the stack top lands
exactly at the bunker height (height and volume reduced accordingly), and
each call appends exactly one layer at the current top, never reordering
the existing ones. -/
theorem C9_bunker_capacity_invariant (b : BlastFurnaceBunker)
    (requests : List (String × ℚ × Chemistry × ℚ))
    (hd : 0 < b.diameter) (hfill : fillHeight b ≤ b.height)
    (hvol : ∀ r ∈ requests, 0 ≤ r.2.1) :
    fillHeight (addLayers b requests) ≤ b.height ∧
    (∀ (name : String) (vol : ℚ) (chem : Chemistry) (ts : ℚ),
      (∃ layer, (add_material_layer b name vol chem ts).layers = b.layers ++ [layer] ∧
        layer.position = fillHeight b) ∧
      (b.height < fillHeight b + vol / (np_pi * (b.diameter / 2) ^ 2) →
        fillHeight (add_material_layer b name vol chem ts) = b.height)) := by
  constructor
  · clear hvol
    induction requests generalizing b with
    | nil => exact hfill
    | cons r rest ih =>
      have hstep : addLayers b (r :: rest) =
          addLayers (add_material_layer b r.1 r.2.1 r.2.2.1 r.2.2.2) rest := by
        unfold addLayers
        rw [List.foldl_cons]
      rw [hstep]
      have hk := add_layer_keeps_dims b r.1 r.2.1 r.2.2.1 r.2.2.2
      have := ih (add_material_layer b r.1 r.2.1 r.2.2.1 r.2.2.2)
        (by rw [hk.2]; exact hd)
        (by rw [hk.1]; exact add_layer_le b r.1 r.2.1 r.2.2.1 r.2.2.2 hfill)
      rw [hk.1] at this
      exact this
  · intro name vol chem ts
    constructor
    · refine ⟨appendedLayer b name vol chem ts, ?_, rfl⟩
      unfold add_material_layer appendedLayer
      by_cases hc : b.height < fillHeight b + vol / (np_pi * (b.diameter / 2) ^ 2)
      · simp only [if_pos hc]
      · simp only [if_neg hc]
    · intro hover
      rw [fillHeight_add, if_pos hover]

def bunkerC9 : BlastFurnaceBunker := ⟨"BF1", 2, 1, []⟩

/-- Witness for C9: an empty bunker of height 1 receiving a 100 m³ layer
(which must be truncated) still satisfies the capacity bound. -/
theorem C9_witness :
    (0 : ℚ) < bunkerC9.diameter ∧
    fillHeight bunkerC9 ≤ bunkerC9.height ∧
    (0 : ℚ) ≤ 100 ∧
    fillHeight (addLayers bunkerC9 [("Pellets", 100, ⟨65, 4, 1, 1, 1⟩, 0)]) ≤
      bunkerC9.height := by
  have hd : (0 : ℚ) < bunkerC9.diameter := by norm_num [bunkerC9]
  have hf : fillHeight bunkerC9 ≤ bunkerC9.height := by
    norm_num [fillHeight, bunkerC9]
  refine ⟨hd, hf, by norm_num, ?_⟩
  refine (C9_bunker_capacity_invariant bunkerC9 [("Pellets", 100, ⟨65, 4, 1, 1, 1⟩, 0)]
    hd hf ?_).1
  intro r hr
  rw [List.mem_singleton] at hr
  subst hr
  norm_num

lemma silo_validate_ok {s : Silo} (h : s.validate = .ok ()) :
    0 < s.capacity ∧ 0 < s.flow_rate ∧ 0 ≤ s.material_position ∧
    0 ≤ s.silo_position ∧ 0 ≤ s.start_time := by
  unfold Silo.validate at h
  split_ifs at h with h1 h2 h3 h4 h5 <;> try cases h
  exact ⟨not_le.mp h1, not_le.mp h2, not_lt.mp h3, not_lt.mp h4, not_lt.mp h5⟩

lemma validateSilosFrom_ok {ns nm : ℤ} {T : ℚ} {l : List Silo} :
    validateSilosFrom ns nm T l = .ok () →
    ∀ s ∈ l, s.silo_position < ns ∧ s.material_position < nm ∧ s.start_time ≤ T := by
  induction l with
  | nil => intro _ s hs; cases hs
  | cons a rest ih =>
    intro h s hs
    unfold validateSilosFrom at h
    by_cases h1 : ns ≤ a.silo_position
    · rw [if_pos h1] at h; cases h
    · rw [if_neg h1] at h
      by_cases h2 : nm ≤ a.material_position
      · rw [if_pos h2] at h; cases h
      · rw [if_neg h2] at h
        by_cases h3 : T < a.start_time
        · rw [if_pos h3] at h; cases h
        · rw [if_neg h3] at h
          rcases List.mem_cons.mp hs with rfl | hs2
          · exact ⟨not_le.mp h1, not_le.mp h2, not_lt.mp h3⟩
          · exact ih h s hs2

lemma validate_parameters_ok {p : SimulationParameters}
    (h : validate_parameters p = .ok ()) :
    validate_basic_parameters p = .ok () ∧ validate_materials p = .ok () ∧
    validate_silos p = .ok () ∧ validate_physical_constraints p = .ok () := by
  unfold validate_parameters at h
  cases hb : validate_basic_parameters p with
  | error e => rw [hb] at h; cases h
  | ok u =>
    cases u
    rw [hb] at h
    cases hm : validate_materials p with
    | error e => rw [hm] at h; cases h
    | ok u =>
      cases u
      rw [hm] at h
      cases hsl : validate_silos p with
      | error e => rw [hsl] at h; cases h
      | ok u =>
        cases u
        rw [hsl] at h
        exact ⟨rfl, rfl, rfl, h⟩

lemma validate_basic_ok {p : SimulationParameters}
    (h : validate_basic_parameters p = .ok ()) :
    0 < p.total_time ∧ 0 < p.conveyor_length ∧ 0 < p.resolution_size ∧
    0 < p.conveyor_velocity ∧ p.resolution_size ≤ p.conveyor_length := by
  unfold validate_basic_parameters at h
  split_ifs at h with h1 h2 h3 h4 h5 <;> try cases h
  exact ⟨not_le.mp h1, not_le.mp h2, not_le.mp h3, not_le.mp h4, not_lt.mp h5⟩

lemma validate_silos_ok {p : SimulationParameters}
    (h : validate_silos p = .ok ()) :
    p.silos ≠ [] ∧ ∀ s ∈ p.silos, s.silo_position < nSegments p ∧
      s.material_position < (p.materials.length : ℤ) ∧ s.start_time ≤ p.total_time := by
  unfold validate_silos at h
  by_cases hnil : p.silos = []
  · rw [if_pos hnil] at h; cases h
  · rw [if_neg hnil] at h
    exact ⟨hnil, validateSilosFrom_ok h⟩

/-- C6 — A source with a negative belt column or negative material row
cannot be constructed (the constructor's validation raises), and for any
source configuration whose discharge column is at or beyond the number of
grid columns, `run_simulation` fails validation before any simulation step
runs and returns an error, never a `SimulationResults` — such positions are
never silently clamped. -/
theorem C6_position_validation :
    (∀ (mat : String) (cap fr : ℚ) (mp sp : ℤ) (st : ℚ),
      mp < 0 ∨ sp < 0 → ∃ e, mkSilo mat cap fr mp sp st = .error e) ∧
    (∀ (p : SimulationParameters) (s : Silo), s ∈ p.silos →
      nSegments p ≤ s.silo_position → ∃ e, run_simulation p = .error e) := by
  constructor
  · intro mat cap fr mp sp st hneg
    unfold mkSilo
    cases hv : Silo.validate ⟨mat, cap, fr, mp, sp, st⟩ with
    | error e => exact ⟨e, by simp only [hv]⟩
    | ok u =>
      cases u
      exfalso
      have hok := silo_validate_ok hv
      rcases hneg with hneg | hneg
      · exact absurd hok.2.2.1 (by simpa using hneg)
      · exact absurd hok.2.2.2.1 (by simpa using hneg)
  · intro p s hs hpos
    cases hv : validate_parameters p with
    | error e =>
      refine ⟨e, ?_⟩
      unfold run_simulation
      rw [hv]
    | ok u =>
      cases u
      exfalso
      have h4 := validate_parameters_ok hv
      have hbound := (validate_silos_ok h4.2.2.1).2 s hs
      omega

def siloBad : Silo := ⟨"A", 1, 1, 0, 5, 0⟩

def pBad : SimulationParameters := ⟨2, 2, 1, 1, ["A"], [siloBad], []⟩

/-- Witness for C6: constructing a silo with a negative belt column fails,
and a simulation whose only silo discharges at column 5 of a 2-column grid
returns a validation error. -/
theorem C6_witness :
    ((-1 : ℤ) < 0 ∨ (0 : ℤ) < 0) ∧
    (∃ e, mkSilo "A" 1 1 (-1) 0 0 = .error e) ∧
    siloBad ∈ pBad.silos ∧
    nSegments pBad ≤ siloBad.silo_position ∧
    (∃ e, run_simulation pBad = .error e) := by
  have hneg : (-1 : ℤ) < 0 ∨ (0 : ℤ) < 0 := Or.inl (by norm_num)
  have hseg : nSegments pBad = 2 := by
    norm_num [nSegments, pyInt, pBad]
  have hmem : siloBad ∈ pBad.silos := by
    simp [pBad]
  have hle : nSegments pBad ≤ siloBad.silo_position := by
    rw [hseg]
    norm_num [siloBad]
  exact ⟨hneg, C6_position_validation.1 "A" 1 1 (-1) 0 0 hneg, hmem, hle,
    C6_position_validation.2 pBad siloBad hmem hle⟩

lemma simLoop_counter_bounds (silos : List Silo) (dt T : ℚ) (ns : ℕ) (ss : ℤ)
    {n k : ℕ} (t : ℚ) (c : ℕ) (M : Fin n → Fin k → ℚ)
    (acc : List (Fin (n + 2) → ℚ)) (hc : c ≤ ns + 1) :
    c ≤ (simLoop silos dt T ns ss t c M acc).2.2.2 ∧
    (simLoop silos dt T ns ss t c M acc).2.2.2 ≤ ns + 1 := by
  induction t, c, M, acc using simLoop.induct silos dt T ns ss with
  | case1 t c M acc h ih =>
    rw [simLoop, dif_pos h]
    have := ih (by omega)
    omega
  | case2 t c M acc h =>
    rw [simLoop, dif_neg h]
    exact ⟨le_rfl, hc⟩

lemma simLoop_length (silos : List Silo) (dt T : ℚ) (ns : ℕ) (ss : ℤ)
    {n k : ℕ} (t : ℚ) (c : ℕ) (M : Fin n → Fin k → ℚ)
    (acc : List (Fin (n + 2) → ℚ)) :
    (simLoop silos dt T ns ss t c M acc).1.length + c =
      acc.length + (simLoop silos dt T ns ss t c M acc).2.2.2 := by
  induction t, c, M, acc using simLoop.induct silos dt T ns ss with
  | case1 t c M acc h ih =>
    rw [simLoop, dif_pos h]
    simp only [List.length_append, List.length_cons, List.length_nil] at ih
    omega
  | case2 t c M acc h =>
    rw [simLoop, dif_neg h]

/-- The state returned by the engine's loop for a parameter set. -/
def engineOut (p : SimulationParameters) :
    List (Fin (p.materials.length + 2) → ℚ) ×
      (Fin p.materials.length → Fin (nSegments p).toNat → ℚ) × ℚ × ℕ :=
  simLoop p.silos p.dt p.total_time (nSteps p) (stepSize p) 0 0 (fun _ _ => 0) []

lemma run_simulation_ok_elim {p : SimulationParameters}
    {res : SimulationResults p.materials.length (nSegments p).toNat}
    (h : run_simulation p = .ok res) :
    validate_parameters p = .ok () ∧
    res.flow_data = (engineOut p).1 ∧
    res.material_matrix = (engineOut p).2.1 ∧
    res.n_steps = (engineOut p).2.2.2 ∧
    res.mass_balance = calculate_mass_balance (engineOut p).1 := by
  unfold run_simulation at h
  cases hv : validate_parameters p with
  | error e => rw [hv] at h; cases h
  | ok u =>
    cases u
    rw [hv] at h
    simp only [] at h
    cases hcp : calculate_proportions
        (simLoop p.silos p.dt p.total_time (nSteps p) (stepSize p) 0 0
          (fun _ _ => 0) []).1 with
    | error e => rw [hcp] at h; cases h
    | ok props =>
      rw [hcp] at h
      simp only [] at h
      injection h with h
      subst h
      exact ⟨rfl, rfl, rfl, rfl, rfl⟩

lemma run_simulation_ok_of_validate {p : SimulationParameters}
    (hv : validate_parameters p = .ok ()) (hmat : p.materials ≠ []) :
    ∃ res, run_simulation p = .ok res := by
  have hn : ¬ (p.materials.length + 2 < 3) := by
    have : p.materials.length ≠ 0 := fun hz => hmat (List.length_eq_zero.mp hz)
    omega
  obtain ⟨props, hcp⟩ : ∃ props,
      calculate_proportions (engineOut p).1 = .ok props := by
    unfold calculate_proportions
    rw [if_neg hn]
    exact ⟨_, rfl⟩
  unfold engineOut at hcp
  cases hr : run_simulation p with
  | ok r => exact ⟨r, rfl⟩
  | error e =>
    exfalso
    unfold run_simulation at hr
    rw [hv] at hr
    simp only [] at hr
    rw [hcp] at hr
    simp only [] at hr
    cases hr

/-- C10 — For every parameter set passing validation, the simulation loop is
bounded by the step counter (not only by the accumulated time): it runs at
most `floor(total_time/dt) + 1` iterations, so it terminates, and the
returned flow table has exactly one row per iteration executed (so every
write stayed inside the `n_steps + 1` preallocated rows). -/
theorem C10_loop_iteration_bound (p : SimulationParameters)
    (res : SimulationResults p.materials.length (nSegments p).toNat)
    (h : run_simulation p = .ok res) :
    res.flow_data.length = res.n_steps ∧
    res.n_steps ≤ nSteps p + 1 ∧
    (nSteps p : ℤ) = ⌊p.total_time / p.dt⌋ := by
  obtain ⟨hv, hflow, hmat, hcnt, hmb⟩ := run_simulation_ok_elim h
  have hbasic := validate_basic_ok (validate_parameters_ok hv).1
  refine ⟨?_, ?_, ?_⟩
  · rw [hflow, hcnt]
    have hlen := simLoop_length p.silos p.dt p.total_time (nSteps p) (stepSize p)
      (n := p.materials.length) (k := (nSegments p).toNat) 0 0 (fun _ _ => 0) []
    unfold engineOut
    simpa using hlen
  · rw [hcnt]
    unfold engineOut
    exact (simLoop_counter_bounds p.silos p.dt p.total_time (nSteps p) (stepSize p)
      (n := p.materials.length) (k := (nSegments p).toNat) 0 0 (fun _ _ => 0) []
      (by omega)).2
  · have hdt : 0 < p.dt := by
      unfold SimulationParameters.dt
      exact div_pos hbasic.2.2.1 hbasic.2.2.2.1
    have hq : 0 ≤ p.total_time / p.dt := le_of_lt (div_pos hbasic.1 hdt)
    unfold nSteps pyInt
    rw [if_pos hq, Int.toNat_of_nonneg (Int.floor_nonneg.mpr hq)]

/-- A minimal valid parameter set: one material, a 1-cell belt, dt = 1,
one silo active on `[0, 1]`. -/
def pTiny : SimulationParameters := ⟨1, 1, 1, 1, ["A"], [⟨"A", 1, 1, 0, 0, 0⟩], []⟩

lemma validate_pTiny : validate_parameters pTiny = .ok () := by
  have hb : validate_basic_parameters pTiny = .ok () := by
    norm_num [validate_basic_parameters, pTiny]
  have hm : validate_materials pTiny = .ok () := by
    norm_num [validate_materials, pTiny]
  have hs : validate_silos pTiny = .ok () := by
    norm_num [validate_silos, validateSilosFrom, nSegments, pyInt, pTiny]
  have hph : validate_physical_constraints pTiny = .ok () := by
    norm_num [validate_physical_constraints, validatePhysicalFrom, Silo.end_time, pTiny]
  unfold validate_parameters
  simp only [hb, hm, hs, hph]

/-- Witness for C10: the tiny valid parameter set runs to an `ok` result
whose flow table length equals the loop's final counter, bounded by
`n_steps + 1`. -/
theorem C10_witness :
    ∃ res, run_simulation pTiny = .ok res ∧
      res.flow_data.length = res.n_steps ∧ res.n_steps ≤ nSteps pTiny + 1 := by
  obtain ⟨res, hres⟩ := run_simulation_ok_of_validate validate_pTiny
    (by norm_num [pTiny])
  have h := C10_loop_iteration_bound pTiny res hres
  exact ⟨res, hres, h.1, h.2.1⟩

lemma recordRow_matIdx {n k : ℕ} (M : Fin n → Fin k → ℚ) (t : ℚ) (c : Fin n) :
    recordRow M t (matIdx c) = lastColumn M c := by
  have hlt : (matIdx c).val < n := c.isLt
  unfold recordRow
  rw [dif_pos hlt]
  congr 1

lemma recordRow_timeIdx {n k : ℕ} (M : Fin n → Fin k → ℚ) (t : ℚ) :
    recordRow M t (timeIdx n) = t := by
  unfold recordRow timeIdx
  rw [dif_neg (lt_irrefl n), if_pos rfl]

lemma recordRow_totalIdx {n k : ℕ} (M : Fin n → Fin k → ℚ) (t : ℚ) :
    recordRow M t (totalIdx n) = ∑ r : Fin n, lastColumn M r := by
  unfold recordRow totalIdx
  rw [dif_neg (by simp [Fin.last]), if_neg (by simp [Fin.last])]

lemma mass_balance_fields {n : ℕ} (l : List (Fin (n + 2) → ℚ)) :
    (calculate_mass_balance l).total_input =
      (l.map (fun row => ∑ c : Fin n, row (matIdx c))).sum ∧
    (calculate_mass_balance l).total_output =
      (l.map (fun row => row (totalIdx n))).sum ∧
    (calculate_mass_balance l).balance_error =
      |(calculate_mass_balance l).total_input -
        (calculate_mass_balance l).total_output| :=
  ⟨rfl, rfl, rfl⟩

lemma simLoop_rows_total (silos : List Silo) (dt T : ℚ) (ns : ℕ) (ss : ℤ)
    {n k : ℕ} (t : ℚ) (c : ℕ) (M : Fin n → Fin k → ℚ)
    (acc : List (Fin (n + 2) → ℚ))
    (hacc : ∀ row ∈ acc, row (totalIdx n) = ∑ c2 : Fin n, row (matIdx c2)) :
    ∀ row ∈ (simLoop silos dt T ns ss t c M acc).1,
      row (totalIdx n) = ∑ c2 : Fin n, row (matIdx c2) := by
  revert hacc
  induction t, c, M, acc using simLoop.induct silos dt T ns ss with
  | case1 t c M acc h ih =>
    intro hacc
    rw [simLoop, dif_pos h]
    apply ih
    intro row hrow
    rcases List.mem_append.mp hrow with hmem | hmem
    · exact hacc row hmem
    · rw [List.mem_singleton] at hmem
      subst hmem
      rw [recordRow_totalIdx]
      exact Finset.sum_congr rfl fun i _ => (recordRow_matIdx _ _ i).symm
  | case2 t c M acc h =>
    intro hacc
    rw [simLoop, dif_neg h]
    exact hacc

/-- C2 — For every parameter set passing validation, the last column of
every row of the returned flow table equals the sum of that row's
per-material columns; consequently `calculate_mass_balance`'s total input
equals its total output exactly and the balance error is 0. -/
theorem C2_total_column_and_zero_balance_error (p : SimulationParameters)
    (res : SimulationResults p.materials.length (nSegments p).toNat)
    (h : run_simulation p = .ok res) :
    (∀ row ∈ res.flow_data,
      row (totalIdx p.materials.length) =
        ∑ c : Fin p.materials.length, row (matIdx c)) ∧
    res.mass_balance.total_input = res.mass_balance.total_output ∧
    res.mass_balance.balance_error = 0 := by
  obtain ⟨hv, hflow, hmat, hcnt, hmb⟩ := run_simulation_ok_elim h
  have hrows : ∀ row ∈ (engineOut p).1,
      row (totalIdx p.materials.length) =
        ∑ c : Fin p.materials.length, row (matIdx c) := by
    unfold engineOut
    exact simLoop_rows_total p.silos p.dt p.total_time (nSteps p) (stepSize p)
      0 0 (fun _ _ => 0) [] (by intro row hrow; cases hrow)
  have hio : (calculate_mass_balance (engineOut p).1).total_input =
      (calculate_mass_balance (engineOut p).1).total_output := by
    rw [(mass_balance_fields (engineOut p).1).1, (mass_balance_fields (engineOut p).1).2.1]
    exact congrArg List.sum
      (List.map_congr_left fun row hrow => (hrows row hrow).symm)
  refine ⟨by rw [hflow]; exact hrows, by rw [hmb]; exact hio, ?_⟩
  rw [hmb, (mass_balance_fields (engineOut p).1).2.2, hio, sub_self, abs_zero]

/-- Witness for C2: the tiny valid parameter set yields a result with equal
mass-balance totals and zero balance error. -/
theorem C2_witness :
    ∃ res, run_simulation pTiny = .ok res ∧
      res.mass_balance.total_input = res.mass_balance.total_output ∧
      res.mass_balance.balance_error = 0 := by
  obtain ⟨res, hres⟩ := run_simulation_ok_of_validate validate_pTiny
    (by norm_num [pTiny])
  have h := C2_total_column_and_zero_balance_error pTiny res hres
  exact ⟨res, hres, h.2.1, h.2.2⟩

/-- Number of loop steps at which a silo is active: step `j` runs at time
`j * dt` (time advances from 0 by exactly `dt` per iteration). -/
def activeStepCount (s : Silo) (dt : ℚ) (steps : ℕ) : ℕ :=
  ((List.range steps).filter (fun (j : ℕ) => s.is_active_at_time ((j : ℚ) * dt))).length

/-- Total mass injected by all sources over `steps` loop iterations:
`Σ source.flow_rate * dt * active_steps`. -/
def totalInjected (silos : List Silo) (dt : ℚ) (steps : ℕ) : ℚ :=
  (silos.map (fun s => s.flow_rate * dt * (activeStepCount s dt steps : ℚ))).sum

/-- Total mass currently on the belt grid. -/
def gridSum {n k : ℕ} (M : Fin n → Fin k → ℚ) : ℚ :=
  ∑ r : Fin n, ∑ c : Fin k, M r c

/-- Total mass recorded in the flow table (all per-material entries). -/
def recordedSum {n : ℕ} (rows : List (Fin (n + 2) → ℚ)) : ℚ :=
  (rows.map (fun row => ∑ c : Fin n, row (matIdx c))).sum

lemma gridSum_add_material {n k : ℕ} (M : Fin n → Fin k → ℚ) (mp sp : ℤ) (q : ℚ)
    (hb : 0 ≤ mp ∧ mp < (n : ℤ) ∧ 0 ≤ sp ∧ sp < (k : ℤ)) :
    gridSum (_add_material_to_conveyor M mp sp q) = gridSum M + q := by
  obtain ⟨h1, h2, h3, h4⟩ := hb
  have hR : mp.toNat < n := by omega
  have hC : sp.toNat < k := by omega
  have hRC : ∀ (r : Fin n) (c : Fin k),
      (((r.val : ℤ) = mp ∧ (c.val : ℤ) = sp)) ↔
        (r = ⟨mp.toNat, hR⟩ ∧ c = ⟨sp.toNat, hC⟩) := by
    intro r c
    constructor
    · rintro ⟨e1, e2⟩
      exact ⟨Fin.ext (show r.val = mp.toNat by omega), Fin.ext (show c.val = sp.toNat by omega)⟩
    · rintro ⟨rfl, rfl⟩
      exact ⟨Int.toNat_of_nonneg h1, Int.toNat_of_nonneg h3⟩
  unfold gridSum
  have hpoint : ∀ (r : Fin n) (c : Fin k),
      _add_material_to_conveyor M mp sp q r c =
        M r c + (if r = ⟨mp.toNat, hR⟩ ∧ c = ⟨sp.toNat, hC⟩ then q else 0) := by
    intro r c
    rw [add_material_apply]
    by_cases hx : (r.val : ℤ) = mp ∧ (c.val : ℤ) = sp
    · rw [if_pos hx, if_pos ((hRC r c).mp hx)]
    · rw [if_neg hx, if_neg (fun hy => hx ((hRC r c).mpr hy)), add_zero]
  simp only [hpoint, Finset.sum_add_distrib]
  congr 1
  simp [ite_and, Finset.sum_ite_eq']

lemma gridSum_processSilos {n k : ℕ} (silos : List Silo) (t dt : ℚ)
    (M : Fin n → Fin k → ℚ)
    (hb : ∀ s ∈ silos, 0 ≤ s.material_position ∧ s.material_position < (n : ℤ) ∧
      0 ≤ s.silo_position ∧ s.silo_position < (k : ℤ)) :
    gridSum (processSilos silos t dt M) = gridSum M +
      ((silos.filter (fun s => s.is_active_at_time t)).map
        (fun s => s.flow_rate * dt)).sum := by
  induction silos generalizing M with
  | nil => simp [processSilos]
  | cons s rest ih =>
    rw [processSilos_cons, ih _ (fun s2 hs2 => hb s2 (List.mem_cons_of_mem _ hs2))]
    by_cases hact : s.is_active_at_time t
    · rw [if_pos hact, gridSum_add_material _ _ _ _ (hb s (List.mem_cons_self _ _)),
        List.filter_cons_of_pos (by simpa using hact), List.map_cons, List.sum_cons]
      unfold Silo.quantity_at_time
      ring
    · rw [if_neg hact, List.filter_cons_of_neg (by simpa using hact)]

lemma gridSum_shift_one {n k : ℕ} (M : Fin n → Fin k → ℚ) :
    gridSum (shift_matrix_right M 1) = gridSum M - ∑ r : Fin n, lastColumn M r := by
  unfold gridSum
  cases k with
  | zero =>
    simp [lastColumn]
  | succ m =>
    rw [← Finset.sum_sub_distrib]
    refine Finset.sum_congr rfl fun r _ => ?_
    have hs : ∀ c : Fin (m + 1), shift_matrix_right M 1 r c =
        if 1 ≤ c.val then M r ⟨c.val - 1, lt_of_le_of_lt (Nat.sub_le _ _) c.isLt⟩
        else 0 := by
      intro c
      rw [shift_pos_apply M 1 (by norm_num)]
      norm_num
    simp only [hs]
    rw [Fin.sum_univ_succ, Fin.sum_univ_castSucc (f := fun c => M r c)]
    have hlast : lastColumn M r = M r (Fin.last m) := by
      unfold lastColumn
      rw [dif_pos (Nat.succ_pos m)]
      congr 1
    rw [hlast]
    have hzero : (if 1 ≤ ((0 : Fin (m + 1)) : ℕ) then
        M r ⟨((0 : Fin (m + 1)) : ℕ) - 1, lt_of_le_of_lt (Nat.sub_le _ _) (Fin.isLt _)⟩
        else 0) = 0 := by
      rw [if_neg (by simp)]
    rw [hzero, zero_add]
    have hsucc : ∀ i : Fin m, (if 1 ≤ ((i.succ : Fin (m + 1)) : ℕ) then
        M r ⟨((i.succ : Fin (m + 1)) : ℕ) - 1, lt_of_le_of_lt (Nat.sub_le _ _) (Fin.isLt _)⟩
        else 0) = M r i.castSucc := by
      intro i
      rw [if_pos (by simp [Fin.val_succ])]
      exact congrArg (M r) (Fin.ext (by simp [Fin.val_succ]))
    simp only [hsucc]
    ring

lemma recordedSum_append {n k : ℕ} (acc : List (Fin (n + 2) → ℚ))
    (M : Fin n → Fin k → ℚ) (t : ℚ) :
    recordedSum (acc ++ [recordRow M t]) =
      recordedSum acc + ∑ r : Fin n, lastColumn M r := by
  unfold recordedSum
  rw [List.map_append, List.sum_append]
  simp only [List.map_cons, List.map_nil, List.sum_cons, List.sum_nil, add_zero]
  congr 1
  exact Finset.sum_congr rfl fun i _ => recordRow_matIdx M t i

lemma activeStepCount_succ (s : Silo) (dt : ℚ) (c : ℕ) :
    activeStepCount s dt (c + 1) = activeStepCount s dt c +
      (if s.is_active_at_time ((c : ℚ) * dt) then 1 else 0) := by
  unfold activeStepCount
  rw [List.range_succ, List.filter_append, List.length_append]
  congr 1
  by_cases hact : s.is_active_at_time ((c : ℚ) * dt)
  · rw [List.filter_cons_of_pos (by simpa using hact), if_pos hact]
    simp
  · rw [List.filter_cons_of_neg (by simpa using hact), if_neg hact]
    simp

lemma totalInjected_succ (silos : List Silo) (dt : ℚ) (c : ℕ) :
    totalInjected silos dt (c + 1) = totalInjected silos dt c +
      ((silos.filter (fun s => s.is_active_at_time ((c : ℚ) * dt))).map
        (fun s => s.flow_rate * dt)).sum := by
  induction silos with
  | nil => simp [totalInjected]
  | cons s rest ih =>
    unfold totalInjected at ih ⊢
    simp only [List.map_cons, List.sum_cons]
    rw [ih, activeStepCount_succ]
    by_cases hact : s.is_active_at_time ((c : ℚ) * dt)
    · rw [if_pos hact, List.filter_cons_of_pos (by simpa using hact),
        List.map_cons, List.sum_cons]
      push_cast
      ring
    · rw [if_neg hact, List.filter_cons_of_neg (by simpa using hact)]
      push_cast
      ring

lemma totalInjected_zero (silos : List Silo) (dt : ℚ) :
    totalInjected silos dt 0 = 0 := by
  unfold totalInjected activeStepCount
  simp

lemma simLoop_conservation (silos : List Silo) (dt T : ℚ) (ns : ℕ)
    {n k : ℕ}
    (hb : ∀ s ∈ silos, 0 ≤ s.material_position ∧ s.material_position < (n : ℤ) ∧
      0 ≤ s.silo_position ∧ s.silo_position < (k : ℤ))
    (t : ℚ) (c : ℕ) (M : Fin n → Fin k → ℚ) (acc : List (Fin (n + 2) → ℚ))
    (ht : t = (c : ℚ) * dt) :
    gridSum (simLoop silos dt T ns 1 t c M acc).2.1 +
      recordedSum (simLoop silos dt T ns 1 t c M acc).1 -
      (gridSum M + recordedSum acc) =
    totalInjected silos dt (simLoop silos dt T ns 1 t c M acc).2.2.2 -
      totalInjected silos dt c := by
  revert ht
  induction t, c, M, acc using simLoop.induct silos dt T ns 1 with
  | case1 t c M acc h ih =>
    intro ht
    rw [simLoop, dif_pos h]
    have ih2 := ih (by push_cast; rw [ht]; ring)
    have hgrid : gridSum (shift_matrix_right (processSilos silos t dt M) 1) =
        gridSum M +
          ((silos.filter (fun s => s.is_active_at_time t)).map
            (fun s => s.flow_rate * dt)).sum -
          ∑ r : Fin n, lastColumn (processSilos silos t dt M) r := by
      rw [gridSum_shift_one, gridSum_processSilos silos t dt M hb]
    have hrec : recordedSum (acc ++ [recordRow (processSilos silos t dt M) t]) =
        recordedSum acc + ∑ r : Fin n, lastColumn (processSilos silos t dt M) r :=
      recordedSum_append acc _ t
    have hinj : totalInjected silos dt (c + 1) = totalInjected silos dt c +
        ((silos.filter (fun s => s.is_active_at_time t)).map
          (fun s => s.flow_rate * dt)).sum := by
      rw [totalInjected_succ, ht]
    rw [hgrid, hrec, hinj] at ih2
    linarith
  | case2 t c M acc h =>
    intro ht
    rw [simLoop, dif_neg h]
    ring

lemma stepSize_validated {p : SimulationParameters}
    (hv : validate_parameters p = .ok ()) : stepSize p = 1 := by
  have hb := validate_basic_ok (validate_parameters_ok hv).1
  unfold stepSize SimulationParameters.dt
  have hone : p.conveyor_velocity * (p.resolution_size / p.conveyor_velocity) /
      p.resolution_size = 1 := by
    field_simp
    exact div_self (ne_of_gt (mul_pos hb.2.2.2.1 hb.2.2.1))
  rw [hone]
  have hround : pyRound 1 = 1 := by
    norm_num [pyRound]
  rw [hround]
  norm_num

/-- C3 — For every parameter set passing validation (with sources that
passed silo construction) whose final belt grid is all zeros, the total
mass injected by all sources over the run (`Σ flow_rate * dt * active
steps`) equals the total mass recorded at the discharge point (the sum of
all per-material entries of the flow table). -/
theorem C3_mass_conservation (p : SimulationParameters)
    (res : SimulationResults p.materials.length (nSegments p).toNat)
    (h : run_simulation p = .ok res)
    (hsv : ∀ s ∈ p.silos, Silo.validate s = .ok ())
    (hempty : ∀ r c, res.material_matrix r c = 0) :
    totalInjected p.silos p.dt res.n_steps = recordedSum res.flow_data := by
  obtain ⟨hv, hflow, hmat, hcnt, hmb⟩ := run_simulation_ok_elim h
  have hss := stepSize_validated hv
  have hout : engineOut p =
      simLoop p.silos p.dt p.total_time (nSteps p) 1 0 0 (fun _ _ => 0) [] := by
    unfold engineOut
    rw [hss]
  have hbounds : ∀ s ∈ p.silos, 0 ≤ s.material_position ∧
      s.material_position < (p.materials.length : ℤ) ∧ 0 ≤ s.silo_position ∧
      s.silo_position < (((nSegments p).toNat : ℕ) : ℤ) := by
    intro s hs
    have h1 := silo_validate_ok (hsv s hs)
    have h2 := (validate_silos_ok (validate_parameters_ok hv).2.2.1).2 s hs
    have h3 : 0 ≤ nSegments p := by omega
    refine ⟨h1.2.2.1, h2.2.1, h1.2.2.2.1, ?_⟩
    rw [Int.toNat_of_nonneg h3]
    exact h2.1
  have hinv := simLoop_conservation p.silos p.dt p.total_time (nSteps p) hbounds
    0 0 (fun _ _ => 0) [] (by norm_num)
  have hgz : gridSum (n := p.materials.length) (k := (nSegments p).toNat)
      (fun _ _ => 0) = 0 := by
    simp [gridSum]
  have hrz : recordedSum (n := p.materials.length)
      ([] : List (Fin (p.materials.length + 2) → ℚ)) = 0 := by
    simp [recordedSum]
  have hmz : gridSum (engineOut p).2.1 = 0 := by
    have : (engineOut p).2.1 = res.material_matrix := hmat.symm
    rw [this]
    unfold gridSum
    simp [hempty]
  rw [hout] at hmz
  rw [hcnt, hflow, hout]
  rw [hgz, hrz, totalInjected_zero, hmz] at hinv
  linarith

/-- Witness for C3: the tiny valid run ends with an all-zero grid (every
step's shift clears the single belt cell after it is recorded), so the
injected mass equals the recorded mass. -/
theorem C3_witness :
    ∃ res, run_simulation pTiny = .ok res ∧
      (∀ s ∈ pTiny.silos, Silo.validate s = .ok ()) ∧
      (∀ r c, res.material_matrix r c = 0) ∧
      totalInjected pTiny.silos pTiny.dt res.n_steps = recordedSum res.flow_data := by
  obtain ⟨res, hres⟩ := run_simulation_ok_of_validate validate_pTiny
    (by norm_num [pTiny])
  have hsv : ∀ s ∈ pTiny.silos, Silo.validate s = .ok () := by
    intro s hs
    rw [show pTiny.silos = [⟨"A", 1, 1, 0, 0, 0⟩] from rfl, List.mem_singleton] at hs
    subst hs
    norm_num [Silo.validate]
  have hd : pTiny.dt = 1 := by
    norm_num [SimulationParameters.dt, pTiny]
  have hn : nSteps pTiny = 1 := by
    norm_num [nSteps, pyInt, SimulationParameters.dt, pTiny]
  have hss : stepSize pTiny = 1 := stepSize_validated validate_pTiny
  have hseg : (nSegments pTiny).toNat = 1 := by
    norm_num [nSegments, pyInt, pTiny]
  have hempty : ∀ r c, res.material_matrix r c = 0 := by
    intro r c
    rw [(run_simulation_ok_elim hres).2.2.1]
    unfold engineOut
    rw [hd, hn, hss]
    rw [simLoop, dif_pos ⟨by norm_num [pTiny], by omega⟩]
    rw [simLoop, dif_pos ⟨by norm_num [pTiny], by omega⟩]
    rw [simLoop, dif_neg (by norm_num [pTiny])]
    show shift_matrix_right
      (processSilos pTiny.silos (0 + 1) 1
        (shift_matrix_right (processSilos pTiny.silos 0 1 (fun _ _ => 0)) 1)) 1 r c = 0
    rw [shift_pos_apply _ 1 (by norm_num), if_neg ?_]
    have hc := c.isLt
    omega
  exact ⟨res, hres, hsv, hempty, C3_mass_conservation pTiny res hres hsv hempty⟩
